import Mathlib

/-!
Shallow embedding of the personalization and pool-management engine of the
crazy-refresh-pull repository: the feedback store (`src/db-repositories/feedback.ts`),
the bounded video pool (`src/db-repositories/videos.ts`, Prisma version, and
`src/services/video-pool.server.ts`), the heuristic authenticity filter
(`src/services/gemini.server.ts`, local-analysis section), the logistic-regression
recommendation model (`src/services/index.ts`) and the filter-and-rank pipeline
(`src/services/apply-filters-rank.server.ts`).

Conventions of the embedding:
* JS strings are Lean `String`s; the inputs relevant to the claims are ASCII, and
  `toLowerCase`/`trim`/whitespace follow the ASCII behaviour.
* JS numbers are embedded as `ℚ` where the source only does field arithmetic and
  comparisons, and as `ℝ` where the source uses `Math.exp`/`Math.log`
  (the gradient-descent trainer and the sigmoid scorer).  Floating-point rounding
  is outside the model.
* Database tables are lists of rows; the SQL/Prisma statements are rendered as the
  list transformations they denote (noted at each definition).
-/

attribute [local semireducible] Rat.mul Rat.add Rat.sub Rat.inv

/-- The apostrophe character, used in string constants of the source. -/
def apoChar : Char := Char.ofNat 39

/-- One-character string holding an apostrophe. -/
def apoStr : String := String.singleton apoChar

/-- JS `String.prototype.toLowerCase` (ASCII range, per the embedding convention). -/
def jsToLower (s : String) : String := String.mk (s.toList.map Char.toLower)

/-- Does `hay` start with `needle` (character-wise)? -/
def matchesAt : List Char → List Char → Bool
  | [], _ => true
  | _ :: _, [] => false
  | a :: as, b :: bs => a == b && matchesAt as bs

/-- Does `hay` contain `needle` as a contiguous run? -/
def hasSubAux : List Char → List Char → Bool
  | needle, [] => needle.isEmpty
  | needle, h :: t => matchesAt needle (h :: t) || hasSubAux needle t

/-- JS `hay.includes(needle)`. -/
def strIncludes (hay needle : String) : Bool := hasSubAux needle.toList hay.toList

/-- Number of characters of `s` satisfying `p` (JS `(s.match(/[class]/g) || []).length`). -/
def countCharP (s : String) (p : Char → Bool) : Nat := (s.toList.filter p).length

/-- Number of positions of `hay` at which `needle` starts.  For the needles used in
the source (`"http://"`, `"https://"`), which cannot overlap themselves, this equals
the JS global-regex match count. -/
def countOccurAux : List Char → List Char → Nat
  | _, [] => 0
  | needle, h :: t => (if matchesAt needle (h :: t) then 1 else 0) + countOccurAux needle t

/-- Occurrence count of `needle` in `hay`. -/
def countOccur (hay needle : String) : Nat := countOccurAux needle.toList hay.toList

/-- JS `\w` character class: `[A-Za-z0-9_]`. -/
def isWordChar (c : Char) : Bool := c.isAlphanum || c == '_'

/-- JS `s.replace(/[^\w]/g, "")`. -/
def stripNonWord (s : String) : String := String.mk (s.toList.filter isWordChar)

/-- JS `s.replace(/[^\w\s]/g, "")`. -/
def stripPunct (s : String) : String :=
  String.mk (s.toList.filter (fun c => isWordChar c || c.isWhitespace))

/-- JS `s.trim()`: drop leading and trailing whitespace. -/
def jsTrim (s : String) : String :=
  String.mk (((s.toList.dropWhile Char.isWhitespace).reverse.dropWhile
    Char.isWhitespace).reverse)

/-- Worker for `splitWsJS`.  `inWs` records whether the previous character was part of
a whitespace run whose preceding token has already been emitted. -/
def splitWsAux : Bool → List Char → List Char → List String
  | inWs, acc, [] => if inWs then [""] else [String.mk acc.reverse]
  | inWs, acc, c :: cs =>
    if c.isWhitespace then
      if inWs then splitWsAux true [] cs
      else String.mk acc.reverse :: splitWsAux true [] cs
    else
      splitWsAux false (c :: acc) cs

/-- JS `s.split(/\s+/)`: split at maximal whitespace runs; a leading or trailing run
produces an empty first or last token, and `"".split(/\s+/)` is `[""]`. -/
def splitWsJS (s : String) : List String := splitWsAux false [] s.toList

/-- The fixed stop-word list shared (verbatim) by both `extractKeywords` copies. -/
def stopWords : List String :=
  ["the", "and", "or", "but", "in", "on", "at", "to", "for", "of",
   "with", "by", "a", "an", "is", "are", "was", "were", "be", "been",
   "have", "has", "had", "do", "does", "did", "will", "would", "could",
   "should", "may", "might", "this", "that", "these", "those"]

/-- The single-word pass shared by both `extractKeywords` copies: for each
whitespace-separated word, strip non-word characters and keep the result when it has
at least 3 characters and is not a stop word. -/
def keywordSingles (words : List String) : List String :=
  words.filterMap (fun w =>
    let cleanWord := stripNonWord w
    if cleanWord.length ≥ 3 && !(stopWords.contains cleanWord) then some cleanWord else none)

/-- The two-word-phrase pass of the heuristic filter's `extractKeywords`
(`gemini.server.ts`): each pair of adjacent words is joined with a space, characters
outside `[\w\s]` are removed, and the phrase is kept when it has length ≥ 5. -/
def keywordBigrams : List String → List String
  | [] => []
  | [_] => []
  | a :: b :: rest =>
    let phrase := stripPunct (a ++ " " ++ b)
    (if phrase.length ≥ 5 then [phrase] else []) ++ keywordBigrams (b :: rest)

/-- `extractKeywords` of the heuristic filter (`src/services/gemini.server.ts`):
lowercase, split on whitespace, significant single words followed by all adjacent
two-word phrases of length ≥ 5 after stripping punctuation. -/
def extractKeywordsFilter (text : String) : List String :=
  let lowerText := jsToLower text
  let words := splitWsJS lowerText
  keywordSingles words ++ keywordBigrams words

/-- `extractKeywords` of the recommendation model (`src/services/index.ts`):
returns `[]` for blank text, then performs only the single-word pass — this copy has
no two-word-phrase loop. -/
def extractKeywordsModel (text : String) : List String :=
  if text == "" || ((jsTrim text).length == 0) then []
  else
    let lowerText := jsToLower text
    let words := splitWsJS lowerText
    keywordSingles words

/-! ## Data model: videos and feedback -/

/-- `Video` (`src/components/video-card.tsx`): the candidate-item shape used by the
pipeline.  `viewCount`/`likeCount` are optional numeric-as-string. -/
structure Video where
  id : String
  title : String
  description : String
  thumbnail : String
  channelTitle : String
  publishedAt : String
  viewCount : Option String
  likeCount : Option String
  url : String
  deriving DecidableEq, Repr

/-- `VideoMetadata` (`src/services/feedback.server.ts`) and `VideoLike`
(`src/services/index.ts`): an id plus individually-optional metadata fields. -/
structure VideoMetadata where
  id : String
  title : Option String
  description : Option String
  channelTitle : Option String
  publishedAt : Option String
  viewCount : Option String
  likeCount : Option String
  url : Option String
  deriving DecidableEq, Repr

/-- View a full `Video` as the optional-field shape taken by `extractFeatures` and
`scoreVideo` (TS passes the `Video` record structurally). -/
def Video.toLike (v : Video) : VideoMetadata :=
  { id := v.id, title := some v.title, description := some v.description,
    channelTitle := some v.channelTitle, publishedAt := some v.publishedAt,
    viewCount := v.viewCount, likeCount := v.likeCount, url := some v.url }

/-- Sentiment labels, the only values the write path stores
(`src/db-repositories/feedback.ts`). -/
inductive Sentiment where
  | positive
  | negative
  deriving DecidableEq, Repr

/-- A row of the `feedback` table (`src/db-repositories/feedback.ts`), keyed by video
id (PRIMARY KEY), holding the sentiment and the metadata snapshot. -/
structure FeedbackRow where
  id : String
  sentiment : Sentiment
  title : Option String
  description : Option String
  channelTitle : Option String
  publishedAt : Option String
  viewCount : Option String
  likeCount : Option String
  url : Option String
  deriving DecidableEq, Repr

/-- The feedback table as a list of rows.  The PRIMARY KEY invariant (at most one row
per id) is carried as a hypothesis where a claim needs it. -/
def FeedbackTable := List FeedbackRow

/-- Distinctness of ids: the PRIMARY KEY invariant of the `feedback` table. -/
def feedbackIdsDistinct (fb : List FeedbackRow) : Prop :=
  fb.Pairwise (fun a b => a.id ≠ b.id)

/-- The row written by `feedbackRepo.upsert` for a given id, sentiment and metadata
snapshot (all columns are set from the insert payload). -/
def mkFeedbackRow (id : String) (s : Sentiment) (m : VideoMetadata) : FeedbackRow :=
  { id := id, sentiment := s, title := m.title, description := m.description,
    channelTitle := m.channelTitle, publishedAt := m.publishedAt,
    viewCount := m.viewCount, likeCount := m.likeCount, url := m.url }

/-- `upsert` (`src/db-repositories/feedback.ts`): `INSERT ... ON CONFLICT (id) DO
UPDATE SET` every column — if a row with the id exists it is replaced in place,
otherwise a new row is added. -/
def upsert (fb : List FeedbackRow) (row : FeedbackRow) : List FeedbackRow :=
  if fb.any (fun r => r.id == row.id) then
    fb.map (fun r => if r.id == row.id then row else r)
  else
    fb ++ [row]

/-- `deleteById`: `DELETE FROM feedback WHERE id = ...`. -/
def deleteById (fb : List FeedbackRow) (id : String) : List FeedbackRow :=
  fb.filter (fun r => r.id ≠ id)

/-- `findIdsBySentiment`: ids of the rows with the given sentiment. -/
def findIdsBySentiment (fb : List FeedbackRow) (s : Sentiment) : List String :=
  (fb.filter (fun r => r.sentiment = s)).map (fun r => r.id)

/-- `rowToMetadata` (`src/services/feedback.server.ts`). -/
def rowToMetadata (r : FeedbackRow) : VideoMetadata :=
  { id := r.id, title := r.title, description := r.description,
    channelTitle := r.channelTitle, publishedAt := r.publishedAt,
    viewCount := r.viewCount, likeCount := r.likeCount, url := r.url }

/-- `getPositiveFeedbackWithMetadata` / `getNegativeFeedbackWithMetadata`
(`src/services/feedback.server.ts`): the metadata snapshots of the rows with the
given sentiment.  The source keys them by id in a `Map`; under the PRIMARY KEY
invariant the map's values are exactly these rows in row order. -/
def feedbackWithMetadata (fb : List FeedbackRow) (s : Sentiment) : List VideoMetadata :=
  (fb.filter (fun r => r.sentiment = s)).map rowToMetadata

/-- The id set `new Set([...positiveFeedback, ...negativeFeedback])` built by the
exclusion step of `applyFiltersAndRank`: every id holding a feedback record of either
sentiment. -/
def allFeedbackIds (fb : List FeedbackRow) : List String :=
  findIdsBySentiment fb .positive ++ findIdsBySentiment fb .negative

/-! ## Heuristic authenticity filter (`src/services/gemini.server.ts`, local analysis) -/

/-- JS truthiness of an optional string: `undefined`/`null` and `""` are falsy. -/
def optTruthy (s : Option String) : Bool := !(s.isNone || s == some "")

/-- JS `parseInt(s, 10)`: skip leading whitespace, optional sign, parse the leading
decimal-digit run; `none` models `NaN` (no digits). -/
def parseDigits : List Char → Option Nat → Option Nat
  | [], acc => acc
  | c :: cs, acc =>
    if c.isDigit then parseDigits cs (some ((acc.getD 0) * 10 + (c.toNat - 48)))
    else acc

/-- JS `parseInt(s, 10)` (radix 10). -/
def parseIntJS (s : String) : Option Int :=
  match s.toList.dropWhile Char.isWhitespace with
  | '-' :: rest => (parseDigits rest none).map (fun n => -(n : Int))
  | '+' :: rest => (parseDigits rest none).map (fun n => (n : Int))
  | l => (parseDigits l none).map (fun n => (n : Int))

/-- The fixed clickbait-phrase list of `detectClickbait` (both copies). -/
def clickbaitPhrases : List String :=
  ["you won" ++ apoStr ++ "t believe", "this will shock you", "number one will",
   "top 10", "watch until the end", "gone wrong", "gone sexual",
   "they don" ++ apoStr ++ "t want you to know", "doctors hate this", "one weird trick",
   "click here", "subscribe now", "like and subscribe", "smash that like button"]

/-- `detectClickbait` (`gemini.server.ts`): capital-letter ratio, emoji count,
clickbait phrases (+0.2 each) and excessive `!`/`?`, clamped to 1.  For an empty
title the JS ratio is `0/0 = NaN` and the `> 0.5` test is false; in `ℚ`, `0 / 0 = 0`
gives the same branch. -/
def detectClickbaitFilter (title : String) : ℚ :=
  let lowerTitle := jsToLower title
  let s1 : ℚ :=
    if ((countCharP title Char.isUpper : ℚ) / (title.length : ℚ)) > 1/2 then 3/10 else 0
  let s2 : ℚ :=
    if countCharP title (fun c => 0x1F300 ≤ c.toNat && c.toNat ≤ 0x1F9FF) > 2
    then 1/5 else 0
  let s3 : ℚ :=
    ((clickbaitPhrases.filter (fun p => strIncludes lowerTitle p)).length : ℚ) * (1/5)
  let s4 : ℚ :=
    if countCharP title (fun c => c == '!') > 2 || countCharP title (fun c => c == '?') > 2
    then 1/10 else 0
  min (s1 + s2 + s3 + s4) 1

/-- `detectClickbait` (`index.ts`): identical body to the filter's copy, with an
additional `if (!title) return 0` guard. -/
def detectClickbaitModel (title : String) : ℚ :=
  if title == "" then 0 else detectClickbaitFilter title

/-- `calculateEngagementScore` (verbatim-identical copies in `gemini.server.ts` and
`index.ts`).  `none` results of `parseIntJS` model `NaN`, whose comparisons are all
false in JS: `NaN` views fall through every branch to 0.2 (`views === 0` is false),
and `NaN` likes give a `NaN` ratio, also ending at 0.2. -/
def calculateEngagementScore (viewCount likeCount : Option String) : ℚ :=
  if !(optTruthy viewCount) || !(optTruthy likeCount) then 1/2
  else
    match parseIntJS (viewCount.getD ""), parseIntJS (likeCount.getD "") with
    | none, _ => 1/5
    | some v, none => if v = 0 then 3/10 else 1/5
    | some v, some l =>
      if v = 0 then 3/10
      else
        let likeRatio : ℚ := (l : ℚ) / (v : ℚ)
        if likeRatio > 1/100 then 4/5
        else if likeRatio > 1/200 then 3/5
        else if likeRatio > 1/1000 then 2/5
        else 1/5

/-- `analyzeDescription` (`gemini.server.ts`): base 0.5, +0.1 for length > 200, −0.2
for subscribe/like/notification, −0.1 for more than 3 links (inside an
`includes("http")` guard), clamped to [0, 1]; blank description short-circuits
to 0.3. -/
def analyzeDescriptionFilter (description : String) : ℚ :=
  if description == "" || (jsTrim description).length == 0 then 3/10
  else
    let desc := jsToLower description
    let s1 : ℚ := if description.length > 200 then 1/2 + 1/10 else 1/2
    let s2 : ℚ :=
      if strIncludes desc "subscribe" && strIncludes desc "like" &&
         strIncludes desc "notification"
      then s1 - 1/5 else s1
    let s3 : ℚ :=
      if strIncludes desc "http://" || strIncludes desc "https://" then
        if countOccur description "http://" + countOccur description "https://" > 3
        then s2 - 1/10 else s2
      else s2
    max 0 (min 1 s3)

/-- `analyzeDescriptionQuality` (`index.ts`): same scoring as the filter's copy but
counts links without the `includes` guard (same value on every input). -/
def analyzeDescriptionQuality (description : String) : ℚ :=
  if description == "" || (jsTrim description).length == 0 then 3/10
  else
    let desc := jsToLower description
    let s1 : ℚ := if description.length > 200 then 1/2 + 1/10 else 1/2
    let s2 : ℚ :=
      if strIncludes desc "subscribe" && strIncludes desc "like" &&
         strIncludes desc "notification"
      then s1 - 1/5 else s1
    let s3 : ℚ :=
      if countOccur description "http://" + countOccur description "https://" > 3
      then s2 - 1/10 else s2
    max 0 (min 1 s3)

/-- `VideoPatterns` (`gemini.server.ts`).  The JS keyword `Set`s are embedded as
lists; only membership is ever queried. -/
structure VideoPatterns where
  positiveTitles : List String
  negativeTitles : List String
  positiveChannels : List String
  negativeChannels : List String
  positiveKeywords : List String
  negativeKeywords : List String
  deriving DecidableEq, Repr

/-- Keywords contributed by one metadata snapshot (title and description, each only
when truthy) using the filter's `extractKeywords`. -/
def metaKeywordsFilter (m : VideoMetadata) : List String :=
  (if optTruthy m.title then extractKeywordsFilter (m.title.getD "") else []) ++
  (if optTruthy m.description then extractKeywordsFilter (m.description.getD "") else [])

/-- `loadFeedbackPatterns` (`gemini.server.ts`): mine titles, channels and keyword
sets from the stored positive/negative metadata snapshots. -/
def loadFeedbackPatternsFilter (fb : List FeedbackRow) : VideoPatterns :=
  let positive := feedbackWithMetadata fb .positive
  let negative := feedbackWithMetadata fb .negative
  { positiveTitles := (positive.filter (fun m => optTruthy m.title)).map (fun m => m.title.getD "")
    negativeTitles := (negative.filter (fun m => optTruthy m.title)).map (fun m => m.title.getD "")
    positiveChannels :=
      (positive.filter (fun m => optTruthy m.channelTitle)).map (fun m => m.channelTitle.getD "")
    negativeChannels :=
      (negative.filter (fun m => optTruthy m.channelTitle)).map (fun m => m.channelTitle.getD "")
    positiveKeywords := positive.flatMap metaKeywordsFilter
    negativeKeywords := negative.flatMap metaKeywordsFilter }

/-- `VideoAnalysisResult` (`filter.server.ts` shape).  The human-readable `reasoning`
strings are not modelled. -/
structure VideoAnalysisResult where
  videoId : String
  isAuthentic : Bool
  score : ℚ
  deriving DecidableEq, Repr

/-- `analyzeVideo` (`gemini.server.ts`): start at 0.5, apply clickbait, description,
engagement, channel-name, title-length and feedback-pattern deltas, clamp to [0, 1]
and compare against the FIXED constant 0.4 (`// Determine if authentic (threshold:
0.4)`) — the function declares no threshold parameter. -/
def analyzeVideo (video : Video) (patterns : Option VideoPatterns) : VideoAnalysisResult :=
  let clickbaitScore := detectClickbaitFilter video.title
  let score1 : ℚ :=
    if clickbaitScore > 3/10 then 1/2 - clickbaitScore * (2/5)
    else if clickbaitScore < 1/10 then 1/2 + 1/10
    else 1/2
  let descScore := analyzeDescriptionFilter video.description
  let score2 := score1 + (descScore - 1/2) * (1/5)
  let engagementScore := calculateEngagementScore video.viewCount video.likeCount
  let score3 := score2 + (engagementScore - 1/2) * (1/5)
  let channelLower := jsToLower video.channelTitle
  let score4 :=
    if strIncludes channelLower "official" && !(strIncludes channelLower "unofficial")
    then score3 + 1/20 else score3
  let score5 :=
    if video.title.length < 10 then score4 - 1/10
    else if video.title.length > 100 then score4 - 1/20
    else score4
  let score6 :=
    match patterns with
    | none => score5
    | some pats =>
      let videoKeywords :=
        (extractKeywordsFilter video.title ++ extractKeywordsFilter video.description).dedup
      let kwPos := (videoKeywords.filter (fun k => pats.positiveKeywords.contains k)).length
      let kwNeg := (videoKeywords.filter (fun k => pats.negativeKeywords.contains k)).length
      let positiveMatches := kwPos + (if pats.positiveChannels.contains video.channelTitle then 2 else 0)
      let negativeMatches := kwNeg + (if pats.negativeChannels.contains video.channelTitle then 2 else 0)
      if positiveMatches > 0 && positiveMatches > negativeMatches then
        score5 + min (3/20) (((positiveMatches : ℚ) - (negativeMatches : ℚ)) * (3/100))
      else if negativeMatches > 0 && negativeMatches > positiveMatches then
        score5 - min (3/20) (((negativeMatches : ℚ) - (positiveMatches : ℚ)) * (3/100))
      else score5
  let score := max 0 (min 1 score6)
  { videoId := video.id
    isAuthentic := if score ≥ 2/5 then true else false
    score := score }

/-- `analyzeVideos` (`gemini.server.ts`): mine patterns once from the feedback store
and analyze every video with them.  No threshold parameter is declared. -/
def analyzeVideos (fb : List FeedbackRow) (videos : List Video) : List VideoAnalysisResult :=
  let patterns := loadFeedbackPatternsFilter fb
  videos.map (fun v => analyzeVideo v (some patterns))

/-- The analysis looked up for a video id: results with falsy (empty) ids are never
entered into the JS `Map`, and later entries for an id overwrite earlier ones. -/
def lookupAnalysis (results : List VideoAnalysisResult) (id : String) : Option VideoAnalysisResult :=
  ((results.filter (fun r => r.videoId ≠ "")).reverse).find? (fun r => r.videoId == id)

/-- `filterVideosByAnalysis` (`gemini.server.ts`): keep a video unless its analysis
exists and has `isAuthentic === false`.  No threshold parameter is declared. -/
def filterVideosByAnalysis (videos : List Video) (results : List VideoAnalysisResult) : List Video :=
  videos.filter (fun v =>
    match lookupAnalysis results v.id with
    | none => true
    | some analysis => analysis.isAuthentic != false)

/-- Step 2 of `applyFiltersAndRank` (`apply-filters-rank.server.ts`): the pipeline
passes `authenticityThreshold` as an extra argument to both `analyzeVideos` and
`filterVideosByAnalysis`, but neither function declares the parameter, so the value
is discarded (JS ignores extra arguments). -/
def filterStep (fb : List FeedbackRow) (videos : List Video) (_authenticityThreshold : ℚ) : List Video :=
  filterVideosByAnalysis videos (analyzeVideos fb videos)

/-! ## Recommendation model (`src/services/index.ts`) -/

/-- `FEATURE_COUNT` (`index.ts`). -/
def FEATURE_COUNT : Nat := 10

/-- `FEATURE_NAMES` (`index.ts`). -/
def FEATURE_NAMES : List String :=
  ["clickbait", "descriptionQuality", "engagement", "titleLengthNorm",
   "positiveKeywordOverlap", "negativeKeywordOverlap", "positiveChannelMatch",
   "negativeChannelMatch", "descriptionLengthNorm", "engagementLikeRatio"]

/-- `FeedbackPatterns` (`index.ts`); JS `Set`s embedded as lists, membership-only. -/
structure FeedbackPatterns where
  positiveKeywords : List String
  negativeKeywords : List String
  positiveChannels : List String
  negativeChannels : List String

/-- Keywords contributed by one metadata snapshot using the model's
`extractKeywords` copy. -/
def metaKeywordsModel (m : VideoMetadata) : List String :=
  (if optTruthy m.title then extractKeywordsModel (m.title.getD "") else []) ++
  (if optTruthy m.description then extractKeywordsModel (m.description.getD "") else [])

/-- `loadFeedbackPatterns` (`index.ts`): keyword and channel sets mined from the
stored positive/negative metadata snapshots. -/
def loadFeedbackPatternsModel (fb : List FeedbackRow) : FeedbackPatterns :=
  let positive := feedbackWithMetadata fb .positive
  let negative := feedbackWithMetadata fb .negative
  { positiveKeywords := positive.flatMap metaKeywordsModel
    negativeKeywords := negative.flatMap metaKeywordsModel
    positiveChannels :=
      (positive.filter (fun m => optTruthy m.channelTitle)).map (fun m => m.channelTitle.getD "")
    negativeChannels :=
      (negative.filter (fun m => optTruthy m.channelTitle)).map (fun m => m.channelTitle.getD "") }

/-- `extractFeatures` (`index.ts`): the fixed 10-feature vector.  `parseIntJS`
failures model `NaN`: `NaN` views make `v > 0` false (feature 0.5); `NaN` likes with
positive views would make the JS feature `NaN`, which the rational model collapses to
the neutral 0.5 (no numeric-as-string input of the system hits this). -/
def extractFeatures (video : VideoMetadata) (patterns : FeedbackPatterns) : List ℚ :=
  let title := jsTrim (video.title.getD "")
  let description := jsTrim (video.description.getD "")
  let channelTitle := jsTrim (video.channelTitle.getD "")
  let clickbait := detectClickbaitModel title
  let descriptionQuality := analyzeDescriptionQuality description
  let engagement := calculateEngagementScore video.viewCount video.likeCount
  let titleLengthNorm : ℚ := min 1 ((title.length : ℚ) / 100)
  let descriptionLengthNorm : ℚ := min 1 ((description.length : ℚ) / 500)
  let videoKeywords := (extractKeywordsModel title ++ extractKeywordsModel description).dedup
  let totalKeywords : Nat := if videoKeywords.length = 0 then 1 else videoKeywords.length
  let positiveOverlap :=
    (videoKeywords.filter (fun k => patterns.positiveKeywords.contains k)).length
  let negativeOverlap :=
    (videoKeywords.filter (fun k => patterns.negativeKeywords.contains k)).length
  let positiveKeywordOverlap : ℚ := (positiveOverlap : ℚ) / (totalKeywords : ℚ)
  let negativeKeywordOverlap : ℚ := (negativeOverlap : ℚ) / (totalKeywords : ℚ)
  let positiveChannelMatch : ℚ :=
    if patterns.positiveChannels.contains channelTitle then 1 else 0
  let negativeChannelMatch : ℚ :=
    if patterns.negativeChannels.contains channelTitle then 1 else 0
  let engagementLikeRatio : ℚ :=
    if optTruthy video.viewCount && optTruthy video.likeCount then
      match parseIntJS (video.viewCount.getD ""), parseIntJS (video.likeCount.getD "") with
      | some v, some l => if v > 0 then min 1 (((l : ℚ) / (v : ℚ)) * 100) else 1/2
      | _, _ => 1/2
    else 1/2
  [clickbait, descriptionQuality, engagement, titleLengthNorm,
   min 1 positiveKeywordOverlap, min 1 negativeKeywordOverlap,
   positiveChannelMatch, negativeChannelMatch, descriptionLengthNorm,
   engagementLikeRatio]

/-- The parsed shape of a persisted model blob (`RecommendationModelData` as read
back by `JSON.parse`): `version` may be any number and `weights` may fail
`Array.isArray` (modelled as `none`). -/
structure StoredModel where
  version : Int
  weights : Option (List ℝ)
  bias : ℝ
  featureNames : List String
  trainedAt : String
  positiveCount : Nat
  negativeCount : Nat

/-- What the model key-value slot can hold: a blob `JSON.parse` rejects, or a parsed
object. -/
inductive ModelBlob where
  | invalid
  | parsed (data : StoredModel)

/-- The model persistence state: the key-value row under `MODEL_KEY`
(`src/db-repositories/model.ts`) plus the module-level in-memory cache
(`cachedModel` in `index.ts`). -/
structure ModelSt where
  kv : Option ModelBlob
  cache : Option StoredModel

/-- `loadModelFromDb` (`index.ts`): cached value if present; otherwise read the blob,
return `none` when absent or unparseable, and reject artifacts whose `version` is not
1 or whose `weights` is not an array of length `FEATURE_COUNT`. -/
def loadModelFromDb (mst : ModelSt) : Option StoredModel :=
  match mst.cache with
  | some m => some m
  | none =>
    match mst.kv with
    | none => none
    | some .invalid => none
    | some (.parsed data) =>
      if data.version ≠ 1 then none
      else
        match data.weights with
        | none => none
        | some w => if w.length ≠ FEATURE_COUNT then none else some data

/-- `isModelAvailable` (`index.ts`). -/
def isModelAvailable (mst : ModelSt) : Bool := (loadModelFromDb mst).isSome

/-- `saveModel` (`index.ts`): persist the serialized artifact (which parses back to
itself) and set the in-memory cache. -/
def saveModel (data : StoredModel) (_mst : ModelSt) : ModelSt :=
  { kv := some (.parsed data), cache := some data }

/-- `invalidateModelCache` (`index.ts`). -/
def invalidateModelCache (mst : ModelSt) : ModelSt := { mst with cache := none }

/-- `sigmoid` (`index.ts`): logistic function with the input clamped to [−20, 20]. -/
noncomputable def sigmoidR (x : ℝ) : ℝ :=
  1 / (1 + Real.exp (-(max (-20) (min 20 x))))

/-- One labeled training example (label 1 = positive, 0 = negative). -/
structure TrainExample where
  features : List ℚ
  label : Nat

/-- `z = bias + Σ weights[i] * features[i]` over the common length. -/
noncomputable def predictZ (w : List ℝ) (b : ℝ) (features : List ℚ) : ℝ :=
  b + (List.zipWith (fun wi fi => wi * (fi : ℝ)) w features).sum

/-- One epoch of the batch-gradient-descent loop of `trainModel`: accumulate the
gradients and log-likelihood over all examples at the current parameters, then apply
the mean-gradient update with learning rate 0.1.  Returns the updated parameters and
the epoch's `totalLoss` (computed at the pre-update parameters, as in the source). -/
noncomputable def gdEpoch (examples : List TrainExample) (w : List ℝ) (b : ℝ) :
    (List ℝ × ℝ) × ℝ :=
  let acc := examples.foldl
    (fun (acc : List ℝ × ℝ × ℝ) ex =>
      let z := predictZ w b ex.features
      let pred := sigmoidR z
      let err := pred - (ex.label : ℝ)
      (List.zipWith (fun g fi => g + err * (fi : ℝ)) acc.1 ex.features,
       acc.2.1 + err,
       acc.2.2 + (ex.label : ℝ) * Real.log (pred + 1 / (10 : ℝ) ^ (15 : ℕ)) +
         (1 - (ex.label : ℝ)) * Real.log (1 - pred + 1 / (10 : ℝ) ^ (15 : ℕ))))
    (List.replicate FEATURE_COUNT 0, 0, 0)
  let n : ℝ := (examples.length : ℝ)
  ((List.zipWith (fun wi g => wi - (1/10) * g / n) w acc.1,
    b - (1/10) * acc.2.1 / n),
   acc.2.2)

/-- The 500-epoch training loop with the early exit `epoch > 0 && epoch % 100 === 0
&& totalLoss / n > -0.1` checked after each update. -/
noncomputable def gdLoop (examples : List TrainExample) :
    Nat → Nat → List ℝ × ℝ → List ℝ × ℝ
  | 0, _, p => p
  | fuel + 1, epoch, p =>
    let step := gdEpoch examples p.1 p.2
    if epoch > 0 ∧ epoch % 100 = 0 ∧ step.2 / (examples.length : ℝ) > -(1/10) then step.1
    else gdLoop examples fuel (epoch + 1) step.1

/-- `trainModel`'s return shape. -/
structure TrainResult where
  success : Bool
  message : String
  positiveCount : Nat
  negativeCount : Nat
  deriving DecidableEq, Repr

/-- `trainModel` (`index.ts`): refuse to train with fewer than 2 positive or fewer
than 2 negative samples, returning `success=false` with the counts and leaving the
model state untouched; otherwise mine patterns, extract features, fit by gradient
descent and persist the new artifact (`now` stands for `new Date().toISOString()`). -/
noncomputable def trainModel (fb : List FeedbackRow) (mst : ModelSt) (now : String) :
    TrainResult × ModelSt :=
  let positiveList := feedbackWithMetadata fb .positive
  let negativeList := feedbackWithMetadata fb .negative
  if positiveList.length < 2 ∨ negativeList.length < 2 then
    ({ success := false
       message := "Need at least 2 positive and 2 negative feedback samples to train. You have " ++
         toString positiveList.length ++ " positive and " ++
         toString negativeList.length ++ " negative."
       positiveCount := positiveList.length
       negativeCount := negativeList.length }, mst)
  else
    let patterns := loadFeedbackPatternsModel fb
    let examples :=
      positiveList.map (fun m => TrainExample.mk (extractFeatures m patterns) 1) ++
      negativeList.map (fun m => TrainExample.mk (extractFeatures m patterns) 0)
    let p := gdLoop examples 500 0 (List.replicate FEATURE_COUNT 0, 0)
    let data : StoredModel :=
      { version := 1, weights := some p.1, bias := p.2, featureNames := FEATURE_NAMES,
        trainedAt := now, positiveCount := positiveList.length,
        negativeCount := negativeList.length }
    ({ success := true
       message := "Model trained on " ++ toString positiveList.length ++
         " positive and " ++ toString negativeList.length ++
         " negative samples. Use it to rank search results for better \"watch while eating\" recommendations."
       positiveCount := positiveList.length
       negativeCount := negativeList.length }, saveModel data mst)

/-- `scoreVideo` (`index.ts`): `null` without a (structurally valid) model, otherwise
`sigmoid(bias + Σ weights·features)` with patterns mined fresh from feedback.  The
loader guarantees `weights` is `some` list of length `FEATURE_COUNT`. -/
noncomputable def scoreVideo (fb : List FeedbackRow) (mst : ModelSt)
    (video : VideoMetadata) : Option ℝ :=
  match loadModelFromDb mst with
  | none => none
  | some model =>
    let patterns := loadFeedbackPatternsModel fb
    let features := extractFeatures video patterns
    let z := model.bias +
      (List.zipWith (fun wi fi => wi * (fi : ℝ)) (model.weights.getD []) features).sum
    some (sigmoidR z)

/-! ## Filter & rank pipeline (`src/services/apply-filters-rank.server.ts`) -/

/-- Step 4 of `applyFiltersAndRank`: score every (already truncated) video, default
unscored to 0.5, and stable-sort descending by score (JS `Array.prototype.sort` is
stable; the comparator `b.score - a.score` orders by descending score, ties keeping
input order, which `insertionSort` with `b.2 ≤ a.2` realizes). -/
noncomputable def rankStep (fb : List FeedbackRow) (mst : ModelSt)
    (videos : List Video) : List Video :=
  let scored := videos.map (fun v => (v, (scoreVideo fb mst v.toLike).getD (1/2)))
  (List.insertionSort (fun a b : Video × ℝ => b.2 ≤ a.2) scored).map Prod.fst

/-- `applyFiltersAndRank`: exclusion by feedback ids, optional heuristic filter,
truncation to `maxResults`, optional model ranking.  `fbOk`, `filterOk` and `rankOk`
model the `try`/`catch` blocks around the three optional steps: when a dependency
throws, the step is skipped and the current list is kept. -/
noncomputable def applyFiltersAndRank (fb : List FeedbackRow) (mst : ModelSt)
    (fbOk filterOk rankOk : Bool) (videos : List Video) (maxResults : Nat)
    (useCustomFiltering : Bool) (authenticityThreshold : ℚ) : List Video :=
  let out0 :=
    if fbOk then videos.filter (fun v => !((allFeedbackIds fb).contains v.id))
    else videos
  let out1 :=
    if useCustomFiltering && decide (0 < out0.length) then
      if filterOk then filterStep fb out0 authenticityThreshold else out0
    else out0
  let out2 := out1.take maxResults
  if rankOk && isModelAvailable mst then rankStep fb mst out2 else out2

/-! ## Content pool (`src/db-repositories/videos.ts`, Prisma version, and
`src/services/video-pool.server.ts`) -/

/-- `MAX_POOL_SIZE` (`videos.ts`). -/
def MAX_POOL_SIZE : Nat := 3000

/-- `VideoInsert` (`videos.ts`). -/
structure VideoInsert where
  id : String
  title : String
  description : Option String
  thumbnail : Option String
  channelTitle : Option String
  publishedAt : Option String
  viewCount : Option String
  likeCount : Option String
  url : String
  deriving DecidableEq, Repr

/-- A row of the `Video` table.  `insertedAt` models `createdAt`; the embedding
assigns each admitted row the next value of a monotonic counter (the spec's
"monotonic admission time"). -/
structure PoolRow where
  id : String
  title : String
  description : Option String
  thumbnail : Option String
  channelTitle : Option String
  publishedAt : Option String
  viewCount : Option String
  likeCount : Option String
  url : String
  insertedAt : Nat
  deriving DecidableEq, Repr

/-- The pool table plus the admission counter. -/
structure PoolSt where
  rows : List PoolRow
  nextAt : Nat
  deriving DecidableEq, Repr

/-- The row admitted for an insert payload at admission time `t`. -/
def rowOfInsert (v : VideoInsert) (t : Nat) : PoolRow :=
  { id := v.id, title := v.title, description := v.description,
    thumbnail := v.thumbnail, channelTitle := v.channelTitle,
    publishedAt := v.publishedAt, viewCount := v.viewCount,
    likeCount := v.likeCount, url := v.url, insertedAt := t }

/-- Is some row with this id present? -/
def PoolSt.hasId (st : PoolSt) (id : String) : Bool :=
  st.rows.any (fun r => r.id == id)

/-- `insertMany` (`videos.ts`): skip falsy ids, `createMany` with
`skipDuplicates: true` (`ON CONFLICT (id) DO NOTHING`), so ids already in the table —
or already admitted earlier in the same batch — are skipped, not updated; the
returned count is the number of rows actually admitted. -/
def insertMany (st : PoolSt) (videos : List VideoInsert) : PoolSt × Nat :=
  match videos with
  | [] => (st, 0)
  | v :: rest =>
    if v.id == "" then insertMany st rest
    else if st.hasId v.id then insertMany st rest
    else
      let st1 : PoolSt :=
        { rows := st.rows ++ [rowOfInsert v st.nextAt], nextAt := st.nextAt + 1 }
      let r := insertMany st1 rest
      (r.1, r.2 + 1)

/-- How many rows of `rows` are strictly newer than `r`. -/
def newerCount (rows : List PoolRow) (r : PoolRow) : Nat :=
  (rows.filter (fun s => r.insertedAt < s.insertedAt)).length

/-- `evictOldest` (`videos.ts`): `DELETE FROM "Video" WHERE id NOT IN (SELECT id FROM
"Video" ORDER BY "createdAt" DESC LIMIT MAX_POOL_SIZE)` — keep exactly the rows among
the `MAX_POOL_SIZE` newest.  With distinct admission times (as the counter
guarantees) a row survives iff fewer than `MAX_POOL_SIZE` rows are newer. -/
def evictOldest (st : PoolSt) : PoolSt :=
  { st with rows := st.rows.filter (fun r => newerCount st.rows r < MAX_POOL_SIZE) }

/-- `findNewest` (`videos.ts`): newest rows first, limited. -/
def findNewest (st : PoolSt) (limit : Nat) : List PoolRow :=
  (List.insertionSort (fun a b : PoolRow => b.insertedAt ≤ a.insertedAt) st.rows).take limit

/-- Does a row match one search term (Prisma `contains`, `mode: "insensitive"`)?  A
`NULL` description matches nothing (SQL three-valued logic). -/
def rowMatchesTerm (r : PoolRow) (t : String) : Bool :=
  strIncludes (jsToLower r.title) (jsToLower t) ||
  (match r.description with
   | none => false
   | some d => strIncludes (jsToLower d) (jsToLower t))

/-- `searchByTerms` (`videos.ts`): empty term list falls back to `findNewest`;
otherwise up to `limit` rows whose title or description contains any term
case-insensitively.  The `findMany` carries no `orderBy`, so rows come back in table
(admission) order in the embedding. -/
def searchByTerms (st : PoolSt) (terms : List String) (limit : Nat) : List PoolRow :=
  if terms.isEmpty then findNewest st limit
  else (st.rows.filter (fun r => terms.any (fun t => rowMatchesTerm r t))).take limit

/-- `rowToVideo` (`video-pool.server.ts`). -/
def rowToVideo (r : PoolRow) : Video :=
  { id := r.id, title := r.title, description := r.description.getD "",
    thumbnail := r.thumbnail.getD "", channelTitle := r.channelTitle.getD "",
    publishedAt := r.publishedAt.getD "", viewCount := r.viewCount,
    likeCount := r.likeCount, url := r.url }

/-- `videoToInsert` (`video-pool.server.ts`). -/
def videoToInsert (v : Video) : VideoInsert :=
  { id := v.id, title := v.title, description := some v.description,
    thumbnail := some v.thumbnail, channelTitle := some v.channelTitle,
    publishedAt := some v.publishedAt, viewCount := v.viewCount,
    likeCount := v.likeCount, url := v.url }

/-- `addToPool` (`video-pool.server.ts`): filter falsy ids, `insertMany`, then
`evictOldest`; returns the updated pool with `{ added, total }`. -/
def addToPool (st : PoolSt) (newVideos : List Video) : PoolSt × Nat × Nat :=
  let inserts := (newVideos.filter (fun v => v.id ≠ "")).map videoToInsert
  let r := insertMany st inserts
  let st2 := evictOldest r.1
  (st2, r.2, st2.rows.length)

/-- The score `searchPool` assigns a row: for each term, +2 when the lowercased title
contains it, ELSE +1 when the lowercased description contains it. -/
def codeScoreRow (terms : List String) (r : PoolRow) : Nat :=
  let title := jsToLower r.title
  let desc := jsToLower (r.description.getD "")
  terms.foldl (fun acc t =>
    if strIncludes title t then acc + 2
    else if strIncludes desc t then acc + 1
    else acc) 0

/-- `searchPool` (`video-pool.server.ts`; its ignored first `_pool` parameter is
dropped): trim and lowercase the query, keep terms of length ≥ 2, fetch matching rows
and stable-sort them by descending `codeScoreRow` (JS stable `sort` with comparator
`b.score - a.score`). -/
def searchPool (st : PoolSt) (query : String) (limit : Nat) : List Video :=
  let q := jsToLower (jsTrim query)
  let terms := (splitWsJS q).filter (fun t => t.length ≥ 2)
  let rows := searchByTerms st terms limit
  if terms.isEmpty then rows.map rowToVideo
  else
    let scored := rows.map (fun row => (row, codeScoreRow terms row))
    (List.insertionSort (fun a b : PoolRow × Nat => b.2 ≤ a.2) scored).map
      (fun s => rowToVideo s.1)

/-- The term list `searchPool` derives from a query. -/
def queryTerms (query : String) : List String :=
  (splitWsJS (jsToLower (jsTrim query))).filter (fun t => t.length ≥ 2)

/-! ## Spec-side definitions (for refinement comparisons) and invariants -/

/-- The match score as the SPEC words it (claim C2): per term, +2 when the term
occurs in the title PLUS +1 when it occurs in the description, scored independently,
so a term occurring in both contributes 3. -/
def specMatchScoreV (terms : List String) (v : Video) : Nat :=
  terms.foldl (fun acc t =>
    acc + (if strIncludes (jsToLower v.title) t then 2 else 0) +
      (if strIncludes (jsToLower v.description) t then 1 else 0)) 0

/-- The score `searchPool` actually computes, expressed on the returned `Video`s:
+2 when the term occurs in the title, ELSE +1 when it occurs in the description. -/
def codeScoreV (terms : List String) (v : Video) : Nat :=
  let title := jsToLower v.title
  let desc := jsToLower v.description
  terms.foldl (fun acc t =>
    if strIncludes title t then acc + 2
    else if strIncludes desc t then acc + 1
    else acc) 0

/-- The bigram set as the SPEC words it (claims C4/4.3.1): all adjacent-word bigrams
of the lowercased whitespace-split text, of length ≥ 5 characters after stripping
punctuation. -/
def specBigrams (text : String) : List String :=
  let words := splitWsJS (jsToLower text)
  (words.zip words.tail).filterMap (fun p =>
    let phrase := stripPunct (p.1 ++ " " ++ p.2)
    if phrase.length ≥ 5 then some phrase else none)

/-- PRIMARY KEY invariant of the `Video` pool table: at most one row per id. -/
def poolIdsDistinct (st : PoolSt) : Prop :=
  st.rows.Pairwise (fun a b => a.id ≠ b.id)

/-- Admission-time invariant of the pool state: rows are listed in admission order
with strictly increasing `insertedAt`, all below the counter. -/
def poolTimesAscending (st : PoolSt) : Prop :=
  st.rows.Pairwise (fun a b => a.insertedAt < b.insertedAt) ∧
  ∀ r ∈ st.rows, r.insertedAt < st.nextAt

/-- Totality of the descending-score comparator used by `searchPool`. -/
instance : IsTotal (PoolRow × Nat) (fun a b => b.2 ≤ a.2) :=
  ⟨fun a b => le_total b.2 a.2⟩

/-- Transitivity of the descending-score comparator used by `searchPool`. -/
instance : IsTrans (PoolRow × Nat) (fun a b => b.2 ≤ a.2) :=
  ⟨fun _ _ _ h1 h2 => le_trans h2 h1⟩

/-! ## Concrete fixtures for witnesses and counterexamples -/

/-- A metadata snapshot with every optional field absent. -/
def emptyMeta : VideoMetadata :=
  { id := "", title := none, description := none, channelTitle := none,
    publishedAt := none, viewCount := none, likeCount := none, url := none }

/-- A minimal plain video with the given id. -/
def sampleVideo (id : String) : Video :=
  { id := id, title := "Plain video number one", description := "", thumbnail := "",
    channelTitle := "chan", publishedAt := "", viewCount := none, likeCount := none,
    url := "" }

/-- Pool row fixture: title contains "foo" and so does the description. -/
def c2RowY : PoolRow :=
  { id := "y", title := "foo", description := some "foo", thumbnail := none,
    channelTitle := none, publishedAt := none, viewCount := none, likeCount := none,
    url := "", insertedAt := 1 }

/-- Pool row fixture: title contains "foo", description does not. -/
def c2RowX : PoolRow :=
  { id := "x", title := "foo x", description := some "", thumbnail := none,
    channelTitle := none, publishedAt := none, viewCount := none, likeCount := none,
    url := "", insertedAt := 0 }

/-- Two-row pool fixture. -/
def c2Pool : PoolSt := { rows := [c2RowX, c2RowY], nextAt := 2 }

/-- A plain, non-clickbait video whose heuristic score works out to 0.56. -/
def c3Video : Video :=
  { id := "c3vid", title := "Regular video title", description := "", thumbnail := "",
    channelTitle := "somechannel", publishedAt := "", viewCount := none,
    likeCount := none, url := "" }

/-- A feedback store with 1 positive and 5 negative records. -/
def c5Feedback : List FeedbackRow :=
  [mkFeedbackRow "p1" .positive emptyMeta,
   mkFeedbackRow "n1" .negative emptyMeta,
   mkFeedbackRow "n2" .negative emptyMeta,
   mkFeedbackRow "n3" .negative emptyMeta,
   mkFeedbackRow "n4" .negative emptyMeta,
   mkFeedbackRow "n5" .negative emptyMeta]

/-- A structurally valid persisted artifact (version 1, ten weights). -/
def c5Stored : StoredModel :=
  { version := 1, weights := some (List.replicate 10 0), bias := 0,
    featureNames := FEATURE_NAMES, trainedAt := "earlier", positiveCount := 2,
    negativeCount := 2 }

/-- Model state holding the valid artifact, cache cold. -/
def c5ModelSt : ModelSt := { kv := some (.parsed c5Stored), cache := none }

/-- A persisted artifact with the wrong version (2 instead of 1). -/
def c9BadStored : StoredModel :=
  { version := 2, weights := some (List.replicate 10 0), bias := 0,
    featureNames := [], trainedAt := "", positiveCount := 0, negativeCount := 0 }

/-- Feedback: `v1` labeled positive, `v2` labeled negative. -/
def c8Feedback : List FeedbackRow :=
  [mkFeedbackRow "v1" .positive emptyMeta, mkFeedbackRow "v2" .negative emptyMeta]

/-- The five candidates of the end-to-end scenario. -/
def c8Videos : List Video :=
  [sampleVideo "v1", sampleVideo "v2", sampleVideo "v3", sampleVideo "v4",
   sampleVideo "v5"]

/-- A second, different metadata snapshot. -/
def c7Meta2 : VideoMetadata := { emptyMeta with title := some "second snapshot" }

/-- An insert payload whose id collides with the x-row of `c2Pool`. -/
def c10Insert : VideoInsert :=
  { id := "x", title := "replacement title", description := none, thumbnail := none,
    channelTitle := none, publishedAt := none, viewCount := none, likeCount := none,
    url := "u" }

/-! ## Theorems -/

/-- C9: for every well-formed item, `scoreVideo` returns `null` when no model
artifact is stored, and likewise treats a stored artifact that fails structural
validation (unparseable blob, version ≠ 1, or weight vector not an array of length
10) as no model — returning `null` rather than throwing. -/
theorem c9_scoring_without_model (fb : List FeedbackRow) (v : VideoMetadata)
    (d : StoredModel)
    (hbad : d.version ≠ 1 ∨ d.weights = none ∨
      ∀ w, d.weights = some w → w.length ≠ FEATURE_COUNT) :
    scoreVideo fb { kv := none, cache := none } v = none ∧
    scoreVideo fb { kv := some .invalid, cache := none } v = none ∧
    scoreVideo fb { kv := some (.parsed d), cache := none } v = none := by
  refine ⟨rfl, rfl, ?_⟩
  have hload : loadModelFromDb { kv := some (.parsed d), cache := none } = none := by
    unfold loadModelFromDb
    rcases hbad with h | h | h
    · simp [h]
    · simp [h]
    · by_cases hv : d.version = 1
      · rcases hw : d.weights with _ | w
        · simp [hv, hw]
        · simp [hv, hw, h w hw]
      · simp [hv]
  unfold scoreVideo
  rw [hload]

/-- Witness for C9 at the concrete wrong-version artifact `c9BadStored`. -/
theorem c9_witness :
    (c9BadStored.version ≠ 1 ∨ c9BadStored.weights = none ∨
      ∀ w, c9BadStored.weights = some w → w.length ≠ FEATURE_COUNT) ∧
    (scoreVideo [] { kv := none, cache := none } emptyMeta = none ∧
     scoreVideo [] { kv := some .invalid, cache := none } emptyMeta = none ∧
     scoreVideo [] { kv := some (.parsed c9BadStored), cache := none } emptyMeta = none) :=
  ⟨Or.inl (by decide),
   c9_scoring_without_model [] emptyMeta c9BadStored (Or.inl (by decide))⟩

/-- C5: whenever the feedback store holds fewer than 2 positive or fewer than 2
negative records, `trainModel` returns `success=false` with the current counts, and
neither the persisted artifact nor the in-memory cache is modified — any previously
stored artifact remains loadable unchanged. -/
theorem c5_training_precondition (fb : List FeedbackRow) (mst : ModelSt) (now : String)
    (h : (feedbackWithMetadata fb .positive).length < 2 ∨
      (feedbackWithMetadata fb .negative).length < 2) :
    (trainModel fb mst now).1.success = false ∧
    (trainModel fb mst now).1.positiveCount = (feedbackWithMetadata fb .positive).length ∧
    (trainModel fb mst now).1.negativeCount = (feedbackWithMetadata fb .negative).length ∧
    (trainModel fb mst now).2 = mst ∧
    loadModelFromDb (trainModel fb mst now).2 = loadModelFromDb mst := by
  simp only [trainModel]
  rw [if_pos h]
  simp

/-- Witness for C5: a store with 1 positive and 5 negative records, over a model
state holding a valid artifact. -/
theorem c5_witness :
    ((feedbackWithMetadata c5Feedback .positive).length < 2 ∨
      (feedbackWithMetadata c5Feedback .negative).length < 2) ∧
    ((trainModel c5Feedback c5ModelSt "now").1.success = false ∧
     (trainModel c5Feedback c5ModelSt "now").1.positiveCount =
       (feedbackWithMetadata c5Feedback .positive).length ∧
     (trainModel c5Feedback c5ModelSt "now").1.negativeCount =
       (feedbackWithMetadata c5Feedback .negative).length ∧
     (trainModel c5Feedback c5ModelSt "now").2 = c5ModelSt ∧
     loadModelFromDb (trainModel c5Feedback c5ModelSt "now").2 =
       loadModelFromDb c5ModelSt) :=
  ⟨Or.inl (by decide),
   c5_training_precondition c5Feedback c5ModelSt "now" (Or.inl (by decide))⟩

/-- C3 (code bug): the pipeline's heuristic-filter step discards the threshold it is
handed — `analyzeVideos` and `filterVideosByAnalysis` declare no threshold parameter
and `analyzeVideo` compares against the fixed constant 0.4.  Concretely, at threshold
0.9 the plain video `c3Video` scores 0.56 (< 0.9) yet is kept by the step. -/
theorem c3_threshold_discarded :
    filterStep [] [c3Video] (9/10) = [c3Video] ∧
    (analyzeVideo c3Video (some (loadFeedbackPatternsFilter []))).score = 14/25 ∧
    ((14 : ℚ)/25 < 9/10) := by
  refine ⟨by decide, by decide, by decide⟩

/-- The filter's bigram pass agrees with the adjacent-pairs formulation used by the
spec-side `specBigrams`. -/
theorem keywordBigrams_eq_zip (ws : List String) :
    keywordBigrams ws = (ws.zip ws.tail).filterMap (fun p =>
      let phrase := stripPunct (p.1 ++ " " ++ p.2)
      if phrase.length ≥ 5 then some phrase else none) := by
  induction ws with
  | nil => rfl
  | cons a t ih =>
    cases t with
    | nil => rfl
    | cons b r =>
      simp only [keywordBigrams, List.tail_cons, List.zip_cons_cons,
        List.filterMap_cons] at ih ⊢
      rw [ih]
      by_cases hc : (stripPunct (a ++ " " ++ b)).length ≥ 5
      · simp [hc]
      · simp [hc]

/-- Keywords produced by the single-word pass never contain a space: they are built
by `stripNonWord`, which keeps only `[A-Za-z0-9_]` characters. -/
theorem mem_keywordSingles_no_space {ws : List String} {k : String}
    (h : k ∈ keywordSingles ws) : (' ' : Char) ∉ k.toList := by
  intro hsp
  unfold keywordSingles at h
  rcases List.mem_filterMap.mp h with ⟨w, _, hw⟩
  simp only at hw
  split at hw
  · cases hw
    have : isWordChar ' ' = true := (List.mem_filter.mp hsp).2
    simp [isWordChar, Char.isAlphanum, Char.isAlpha, Char.isDigit, Char.isUpper,
      Char.isLower] at this
  · cases hw

/-- C4 counterexample: the claim that BOTH components' keyword extraction returns
every adjacent-word bigram fails — on "hello world" the recommendation model's copy
(`index.ts`) returns only ["hello", "world"], without the bigram "hello world". -/
theorem c4_counterexample :
    ¬ ∀ text : String,
        (∀ k ∈ specBigrams text, k ∈ extractKeywordsFilter text) ∧
        (∀ k ∈ specBigrams text, k ∈ extractKeywordsModel text) := by
  intro h
  have hb : ("hello world" : String) ∈ specBigrams "hello world" := by decide
  have hm := (h "hello world").2 _ hb
  have hno : ¬ (("hello world" : String) ∈ extractKeywordsModel "hello world") := by
    decide
  exact hno hm

/-- C4 amended: only the heuristic filter's `extractKeywords` (`gemini.server.ts`)
returns, besides the significant single words, every adjacent-word bigram of length
≥ 5 after stripping punctuation; the recommendation model's copy (`index.ts`) has no
bigram pass and returns only space-free single-word tokens — the two components do
not share this logic. -/
theorem c4_bigrams_amended (text : String) :
    (∀ k ∈ specBigrams text, k ∈ extractKeywordsFilter text) ∧
    (∀ k ∈ extractKeywordsModel text, (' ' : Char) ∉ k.toList) := by
  constructor
  · intro k hk
    unfold specBigrams at hk
    unfold extractKeywordsFilter
    dsimp only at hk ⊢
    rw [keywordBigrams_eq_zip]
    exact List.mem_append_right _ hk
  · intro k hk
    simp only [extractKeywordsModel] at hk
    split at hk
    · cases hk
    · exact mem_keywordSingles_no_space hk

/-- A relation that holds universally is pairwise on every list. -/
theorem pairwise_of_total_true {α : Type} {R : α → α → Prop} (hR : ∀ a b, R a b) :
    ∀ l : List α, l.Pairwise R
  | [] => List.Pairwise.nil
  | a :: t => List.Pairwise.cons (fun b _ => hR a b) (pairwise_of_total_true hR t)

/-- The code score on a converted row equals the row score. -/
theorem codeScoreV_rowToVideo (terms : List String) (r : PoolRow) :
    codeScoreV terms (rowToVideo r) = codeScoreRow terms r := rfl

/-- C2 counterexample: for query "foo" on `c2Pool` the code returns the x-row
(score 2: "foo" in title only) before the y-row (spec score 3: "foo" in title AND
description), because the `else if` gives a term in both fields only 2 — so the
output is not descending by the spec's independent (+2 title, +1 description)
score. -/
theorem c2_counterexample :
    ¬ (searchPool c2Pool "foo" 10).Pairwise
        (fun a b => specMatchScoreV (queryTerms "foo") b ≤
          specMatchScoreV (queryTerms "foo") a) := by
  decide

/-- C2 amended: `searchPool` orders the returned entries by descending CODE score,
where each term contributes +2 if it occurs in the title, otherwise +1 if it occurs
in the description — a term occurring in both contributes only 2 (ties keep fetch
order). -/
theorem c2_search_order_amended (st : PoolSt) (query : String) (limit : Nat) :
    (searchPool st query limit).Pairwise
      (fun a b => codeScoreV (queryTerms query) b ≤ codeScoreV (queryTerms query) a) := by
  unfold searchPool
  dsimp only
  by_cases he : ((splitWsJS (jsToLower (jsTrim query))).filter
      (fun t => t.length ≥ 2)).isEmpty
  · rw [if_pos he]
    have hterms : queryTerms query = [] := by
      unfold queryTerms
      exact List.isEmpty_iff.mp he
    refine pairwise_of_total_true (fun a b => ?_) _
    rw [hterms]
    exact le_refl _
  · rw [if_neg he]
    rw [List.pairwise_map]
    have hperm := List.perm_insertionSort (fun a b : PoolRow × Nat => b.2 ≤ a.2)
      ((searchByTerms st ((splitWsJS (jsToLower (jsTrim query))).filter
        (fun t => t.length ≥ 2)) limit).map
        (fun row => (row, codeScoreRow ((splitWsJS (jsToLower (jsTrim query))).filter
          (fun t => t.length ≥ 2)) row)))
    have hsorted : List.Pairwise (fun a b : PoolRow × Nat => b.2 ≤ a.2)
        (List.insertionSort (fun a b : PoolRow × Nat => b.2 ≤ a.2)
          ((searchByTerms st ((splitWsJS (jsToLower (jsTrim query))).filter
            (fun t => t.length ≥ 2)) limit).map
            (fun row => (row, codeScoreRow ((splitWsJS (jsToLower (jsTrim query))).filter
              (fun t => t.length ≥ 2)) row)))) :=
      List.sorted_insertionSort _ _
    refine hsorted.imp_of_mem ?_
    intro p q hp hq hr
    have hp' := hperm.mem_iff.mp hp
    have hq' := hperm.mem_iff.mp hq
    rcases List.mem_map.mp hp' with ⟨rp, _, hep⟩
    rcases List.mem_map.mp hq' with ⟨rq, _, heq⟩
    subst hep
    subst heq
    simpa [codeScoreV_rowToVideo, queryTerms] using hr

/-- Members of `filterStep`'s output come from its input (it only filters). -/
theorem mem_of_mem_filterStep {fb : List FeedbackRow} {videos : List Video} {thr : ℚ}
    {v : Video} (h : v ∈ filterStep fb videos thr) : v ∈ videos := by
  unfold filterStep filterVideosByAnalysis at h
  exact List.mem_of_mem_filter h

/-- Members of `rankStep`'s output come from its input (it only reorders). -/
theorem mem_of_mem_rankStep {fb : List FeedbackRow} {mst : ModelSt}
    {videos : List Video} {v : Video} (h : v ∈ rankStep fb mst videos) : v ∈ videos := by
  unfold rankStep at h
  dsimp only at h
  rcases List.mem_map.mp h with ⟨p, hp, hv⟩
  have hp' := (List.perm_insertionSort
    (fun a b : Video × ℝ => b.2 ≤ a.2) _).mem_iff.mp hp
  rcases List.mem_map.mp hp' with ⟨w, hw, he⟩
  subst he
  subst hv
  exact hw

/-- C1: with the feedback store reachable, for every candidate list and every
parameter choice, `applyFiltersAndRank` returns no video whose id has a feedback
record of either sentiment — the exclusion step removes them and the later steps only
filter, truncate or reorder. -/
theorem c1_exclusion_invariant (fb : List FeedbackRow) (mst : ModelSt)
    (filterOk rankOk : Bool) (videos : List Video) (maxResults : Nat)
    (useCustomFiltering : Bool) (thr : ℚ) :
    (applyFiltersAndRank fb mst true filterOk rankOk videos maxResults
        useCustomFiltering thr).Forall (fun v => v.id ∉ allFeedbackIds fb) := by
  rw [List.forall_iff_forall_mem]
  intro v hv
  unfold applyFiltersAndRank at hv
  dsimp only at hv
  rw [if_pos rfl] at hv
  have hv2 : v ∈ (if (useCustomFiltering && decide (0 <
      (videos.filter (fun v => !((allFeedbackIds fb).contains v.id))).length)) = true then
        (if filterOk = true then
          filterStep fb (videos.filter (fun v => !((allFeedbackIds fb).contains v.id))) thr
        else videos.filter (fun v => !((allFeedbackIds fb).contains v.id)))
      else videos.filter (fun v => !((allFeedbackIds fb).contains v.id))).take maxResults := by
    split at hv
    · exact mem_of_mem_rankStep hv
    · exact hv
  have hv3 := List.take_subset _ _ hv2
  have hv4 : v ∈ videos.filter (fun v => !((allFeedbackIds fb).contains v.id)) := by
    split at hv3
    · split at hv3
      · exact mem_of_mem_filterStep hv3
      · exact hv3
    · exact hv3
  have hkeep := (List.mem_filter.mp hv4).2
  simpa using hkeep

/-- C8: with the store reachable, custom filtering off and no model artifact
available, `applyFiltersAndRank` returns exactly the candidates without feedback
records, in original relative order, truncated to the first `maxResults`. -/
theorem c8_no_filter_no_model (fb : List FeedbackRow) (mst : ModelSt)
    (hm : loadModelFromDb mst = none) (filterOk rankOk : Bool)
    (videos : List Video) (maxResults : Nat) (thr : ℚ) :
    applyFiltersAndRank fb mst true filterOk rankOk videos maxResults false thr =
      (videos.filter (fun v => !((allFeedbackIds fb).contains v.id))).take maxResults := by
  unfold applyFiltersAndRank
  dsimp only
  rw [if_pos rfl]
  have hA : isModelAvailable mst = false := by
    unfold isModelAvailable
    rw [hm]
    rfl
  rw [hA]
  simp

/-- Witness for C8: pool candidates `v1..v5`, feedback `v1`→positive, `v2`→negative,
`maxResults=10`, no heuristic filter, no trained model, yielding exactly
`[v3, v4, v5]` in original relative order. -/
theorem c8_witness :
    loadModelFromDb { kv := none, cache := none } = none ∧
    applyFiltersAndRank c8Feedback { kv := none, cache := none } true true true
      c8Videos 10 false (2/5) =
      [sampleVideo "v3", sampleVideo "v4", sampleVideo "v5"] :=
  ⟨rfl,
   (c8_no_filter_no_model c8Feedback { kv := none, cache := none } rfl true true
     c8Videos 10 (2/5)).trans (by decide)⟩

/-- In the replace branch of `upsert`, filtering the mapped table for the written id
yields exactly the written row (under the PRIMARY KEY invariant). -/
theorem filter_map_replace (fb : List FeedbackRow) (row : FeedbackRow)
    (h : feedbackIdsDistinct fb)
    (hany : fb.any (fun r => r.id == row.id) = true) :
    (fb.map (fun r => if r.id == row.id then row else r)).filter
      (fun r => r.id == row.id) = [row] := by
  induction fb with
  | nil => simp at hany
  | cons a t ih =>
    rcases List.pairwise_cons.mp h with ⟨ha, ht⟩
    by_cases hid : a.id = row.id
    · have htno : ∀ b ∈ t, (b.id == row.id) = false := by
        intro b hb
        have hne := ha b hb
        rw [hid] at hne
        exact beq_eq_false_iff_ne.mpr fun hh => hne hh.symm
      have hnil : (t.map (fun r => if r.id == row.id then row else r)).filter
          (fun r => r.id == row.id) = [] := by
        rw [List.filter_eq_nil_iff]
        intro x hx
        rcases List.mem_map.mp hx with ⟨b, hb, he⟩
        subst he
        simp [htno b hb]
      rw [List.map_cons, List.filter_cons]
      rw [if_pos (beq_iff_eq.mpr hid)]
      rw [if_pos (beq_self_eq_true row.id), hnil]
    · have hany' : t.any (fun r => r.id == row.id) = true := by
        rcases List.any_eq_true.mp hany with ⟨x, hx, hpx⟩
        rcases List.mem_cons.mp hx with he | hxt
        · subst he
          exact absurd (beq_iff_eq.mp hpx) hid
        · exact List.any_eq_true.mpr ⟨x, hxt, hpx⟩
      have hbeq : (a.id == row.id) = false := beq_eq_false_iff_ne.mpr hid
      rw [List.map_cons, List.filter_cons]
      rw [if_neg (by simp [hbeq])]
      exact ih ht hany'

/-- After an upsert, the rows whose id equals the written id are exactly the written
row (under the PRIMARY KEY invariant). -/
theorem upsert_filter_id (fb : List FeedbackRow) (h : feedbackIdsDistinct fb)
    (row : FeedbackRow) :
    (upsert fb row).filter (fun r => r.id == row.id) = [row] := by
  unfold upsert
  split
  · exact filter_map_replace fb row h (by assumption)
  · rename_i hany
    rw [List.filter_append]
    have h1 : fb.filter (fun r => r.id == row.id) = [] := by
      rw [List.filter_eq_nil_iff]
      intro a ha hcontra
      exact hany (List.any_eq_true.mpr ⟨a, ha, hcontra⟩)
    rw [h1]
    simp

/-- `upsert` preserves the PRIMARY KEY invariant. -/
theorem upsert_distinct (fb : List FeedbackRow) (h : feedbackIdsDistinct fb)
    (row : FeedbackRow) : feedbackIdsDistinct (upsert fb row) := by
  unfold upsert
  split
  · unfold feedbackIdsDistinct at h ⊢
    have hid : ∀ r : FeedbackRow, ((if r.id == row.id then row else r).id) = r.id := by
      intro r
      split
      · rename_i hcond
        exact (beq_iff_eq.mp hcond).symm
      · rfl
    refine List.Pairwise.map _ ?_ h
    intro a b hab
    rw [hid a, hid b]
    exact hab
  · rename_i hany
    unfold feedbackIdsDistinct at h ⊢
    rw [List.pairwise_append]
    refine ⟨h, List.pairwise_singleton _ _, ?_⟩
    intro a ha b hb
    rw [List.mem_singleton.mp hb]
    intro he
    exact hany (List.any_eq_true.mpr ⟨a, ha, beq_iff_eq.mpr he⟩)

/-- C7: for every id and metadata snapshots, `upsert(id, positive, m1)` followed by
`upsert(id, negative, m2)` leaves exactly one feedback row for the id — the negative
row carrying m2: last write wins for sentiment and metadata, and no second row is
ever created. -/
theorem c7_upsert_last_write_wins (fb : List FeedbackRow) (h : feedbackIdsDistinct fb)
    (id : String) (m1 m2 : VideoMetadata) :
    (upsert (upsert fb (mkFeedbackRow id .positive m1))
        (mkFeedbackRow id .negative m2)).filter (fun r => r.id == id) =
      [mkFeedbackRow id .negative m2] := by
  have h1 := upsert_distinct fb h (mkFeedbackRow id .positive m1)
  exact upsert_filter_id (upsert fb (mkFeedbackRow id .positive m1)) h1
    (mkFeedbackRow id .negative m2)

/-- Witness for C7: double upsert of "vid" over a one-row store. -/
theorem c7_witness :
    feedbackIdsDistinct [mkFeedbackRow "other" .positive emptyMeta] ∧
    (upsert (upsert [mkFeedbackRow "other" .positive emptyMeta]
        (mkFeedbackRow "vid" .positive emptyMeta))
        (mkFeedbackRow "vid" .negative c7Meta2)).filter (fun r => r.id == "vid") =
      [mkFeedbackRow "vid" .negative c7Meta2] :=
  ⟨by unfold feedbackIdsDistinct; decide,
   c7_upsert_last_write_wins [mkFeedbackRow "other" .positive emptyMeta]
     (by unfold feedbackIdsDistinct; decide) "vid" emptyMeta c7Meta2⟩

/-- `insertMany` preserves the pool's PRIMARY KEY invariant. -/
theorem insertMany_distinct (vs : List VideoInsert) :
    ∀ st : PoolSt, poolIdsDistinct st → poolIdsDistinct (insertMany st vs).1 := by
  induction vs with
  | nil => intro st h; exact h
  | cons v rest ih =>
    intro st h
    simp only [insertMany]
    split
    · exact ih st h
    · split
      · exact ih st h
      · rename_i hid hhas
        refine ih _ ?_
        unfold poolIdsDistinct at h ⊢
        dsimp only
        rw [List.pairwise_append]
        refine ⟨h, List.pairwise_singleton _ _, ?_⟩
        intro a ha b hb
        rw [List.mem_singleton.mp hb]
        intro he
        exact hhas (List.any_eq_true.mpr ⟨a, ha, by simp [rowOfInsert] at he ⊢; exact he⟩)

/-- `insertMany` never touches a row whose id is already present: the rows carrying
an existing id are left exactly as they were (skipped, not updated). -/
theorem insertMany_preserves_existing (vs : List VideoInsert) :
    ∀ (st : PoolSt) (k : String), st.hasId k = true →
      (insertMany st vs).1.rows.filter (fun r => r.id == k) =
        st.rows.filter (fun r => r.id == k) := by
  induction vs with
  | nil => intro st k _; rfl
  | cons v rest ih =>
    intro st k hk
    simp only [insertMany]
    split
    · exact ih st k hk
    · split
      · exact ih st k hk
      · rename_i hid hhas
        have hne : v.id ≠ k := by
          intro he
          rw [he] at hhas
          exact hhas hk
        have hk' : (PoolSt.mk (st.rows ++ [rowOfInsert v st.nextAt])
            (st.nextAt + 1)).hasId k = true := by
          unfold PoolSt.hasId at hk ⊢
          dsimp only
          rw [List.any_append, hk]
          rfl
        rw [ih _ k hk']
        dsimp only
        rw [List.filter_append]
        have hnil : [rowOfInsert v st.nextAt].filter (fun r => r.id == k) = [] := by
          simp [rowOfInsert, hne]
        rw [hnil, List.append_nil]

/-- When every batch element has a falsy id or an id already in the pool,
`insertMany` returns the pool unchanged with count 0. -/
theorem insertMany_all_present (vs : List VideoInsert) :
    ∀ st : PoolSt, (∀ v ∈ vs, v.id = "" ∨ st.hasId v.id = true) →
      insertMany st vs = (st, 0) := by
  induction vs with
  | nil => intro st _; rfl
  | cons v rest ih =>
    intro st h
    simp only [insertMany]
    split
    · exact ih st fun w hw => h w (List.mem_cons_of_mem v hw)
    · split
      · exact ih st fun w hw => h w (List.mem_cons_of_mem v hw)
      · rename_i hid hhas
        rcases h v (List.mem_cons_self v rest) with he | hpres
        · exact absurd (by simp [he]) hid
        · exact absurd hpres hhas

/-- After `insertMany`, a non-empty id that was present before or appears in the
batch is present in the pool. -/
theorem insertMany_hasId_batch (vs : List VideoInsert) :
    ∀ (st : PoolSt) (k : String), k ≠ "" →
      (st.hasId k = true ∨ ∃ v ∈ vs, v.id = k) →
      (insertMany st vs).1.hasId k = true := by
  induction vs with
  | nil =>
    intro st k _ h
    rcases h with h | ⟨v, hv, _⟩
    · exact h
    · cases hv
  | cons v rest ih =>
    intro st k hk h
    simp only [insertMany]
    split
    · rename_i hid
      refine ih st k hk ?_
      rcases h with h | ⟨w, hw, he⟩
      · exact Or.inl h
      · rcases List.mem_cons.mp hw with he2 | hwr
        · subst he2
          exact absurd (by rw [← he]; exact beq_iff_eq.mp hid) hk
        · exact Or.inr ⟨w, hwr, he⟩
    · split
      · rename_i hid hhas
        refine ih st k hk ?_
        rcases h with h | ⟨w, hw, he⟩
        · exact Or.inl h
        · rcases List.mem_cons.mp hw with he2 | hwr
          · subst he2
            exact Or.inl (he ▸ hhas)
          · exact Or.inr ⟨w, hwr, he⟩
      · rename_i hid hhas
        refine ih _ k hk ?_
        rcases h with h | ⟨w, hw, he⟩
        · refine Or.inl ?_
          unfold PoolSt.hasId at h ⊢
          dsimp only
          rw [List.any_append, h]
          rfl
        · rcases List.mem_cons.mp hw with he2 | hwr
          · subst he2
            refine Or.inl ?_
            unfold PoolSt.hasId
            dsimp only
            rw [List.any_append]
            have : [rowOfInsert w st.nextAt].any (fun r => r.id == k) = true := by
              simp [rowOfInsert, he]
            rw [this, Bool.or_true]
          · exact Or.inr ⟨w, hwr, he⟩

/-- Under the PRIMARY KEY invariant, a present id has exactly one row. -/
theorem filter_length_one_of_distinct {rows : List PoolRow}
    (h : rows.Pairwise (fun a b => a.id ≠ b.id)) {k : String}
    (hmem : rows.any (fun r => r.id == k) = true) :
    (rows.filter (fun r => r.id == k)).length = 1 := by
  induction rows with
  | nil => simp at hmem
  | cons a t ih =>
    rcases List.pairwise_cons.mp h with ⟨ha, ht⟩
    by_cases hid : a.id = k
    · rw [List.filter_cons, if_pos (beq_iff_eq.mpr hid)]
      have hnil : t.filter (fun r => r.id == k) = [] := by
        rw [List.filter_eq_nil_iff]
        intro b hb hc
        exact (ha b hb) (by rw [hid, ← beq_iff_eq.mp hc])
      simp [hnil]
    · rw [List.filter_cons, if_neg (by simp [hid])]
      refine ih ht ?_
      rcases List.any_eq_true.mp hmem with ⟨x, hx, hpx⟩
      rcases List.mem_cons.mp hx with he | hxt
      · subst he
        exact absurd (beq_iff_eq.mp hpx) hid
      · exact List.any_eq_true.mpr ⟨x, hxt, hpx⟩

/-- C10: for every pool state and batch, an id already present keeps exactly its one
original row (duplicates are skipped, not updated, and never create a second row),
and a batch of only-duplicate or falsy ids admits 0 — both for `insertMany` and for
the count `addToPool` returns. -/
theorem c10_pool_dedup (st : PoolSt) (h : poolIdsDistinct st) (vs : List VideoInsert) :
    poolIdsDistinct (insertMany st vs).1 ∧
    (∀ k, st.hasId k = true →
      (insertMany st vs).1.rows.filter (fun r => r.id == k) =
        st.rows.filter (fun r => r.id == k)) ∧
    (∀ k, k ≠ "" → (st.hasId k = true ∨ ∃ v ∈ vs, v.id = k) →
      ((insertMany st vs).1.rows.filter (fun r => r.id == k)).length = 1) ∧
    ((∀ v ∈ vs, v.id = "" ∨ st.hasId v.id = true) → insertMany st vs = (st, 0)) ∧
    (∀ nv : List Video, (∀ v ∈ nv, v.id = "" ∨ st.hasId v.id = true) →
      (addToPool st nv).2.1 = 0) := by
  refine ⟨insertMany_distinct vs st h,
    fun k hk => insertMany_preserves_existing vs st k hk,
    fun k hk hsrc => filter_length_one_of_distinct (insertMany_distinct vs st h)
      (insertMany_hasId_batch vs st k hk hsrc),
    insertMany_all_present vs st, ?_⟩
  intro nv hnv
  unfold addToPool
  dsimp only
  rw [insertMany_all_present _ st ?_]
  · intro w hw
    rcases List.mem_map.mp hw with ⟨v, hv, he⟩
    rcases List.mem_filter.mp hv with ⟨hvnv, hvid⟩
    subst he
    rcases hnv v hvnv with he2 | hp
    · exact absurd he2 (by simpa using hvid)
    · exact Or.inr hp

/-- Witness for C10: re-inserting id "x" into `c2Pool`. -/
theorem c10_witness :
    poolIdsDistinct c2Pool ∧
    (poolIdsDistinct (insertMany c2Pool [c10Insert]).1 ∧
     (∀ k, c2Pool.hasId k = true →
       (insertMany c2Pool [c10Insert]).1.rows.filter (fun r => r.id == k) =
         c2Pool.rows.filter (fun r => r.id == k)) ∧
     (∀ k, k ≠ "" → (c2Pool.hasId k = true ∨ ∃ v ∈ [c10Insert], v.id = k) →
       ((insertMany c2Pool [c10Insert]).1.rows.filter (fun r => r.id == k)).length = 1) ∧
     ((∀ v ∈ [c10Insert], v.id = "" ∨ c2Pool.hasId v.id = true) →
       insertMany c2Pool [c10Insert] = (c2Pool, 0)) ∧
     (∀ nv : List Video, (∀ v ∈ nv, v.id = "" ∨ c2Pool.hasId v.id = true) →
       (addToPool c2Pool nv).2.1 = 0)) :=
  ⟨by unfold poolIdsDistinct; decide, c10_pool_dedup c2Pool (by unfold poolIdsDistinct; decide) [c10Insert]⟩

/-- Under strictly increasing admission times, `evictOldest`'s keep-the-newest filter
retains exactly the final `MAX_POOL_SIZE` rows (in admission order). -/
theorem evict_rows_eq_drop :
    ∀ rows : List PoolRow, rows.Pairwise (fun a b => a.insertedAt < b.insertedAt) →
      rows.filter (fun r => newerCount rows r < MAX_POOL_SIZE) =
        rows.drop (rows.length - MAX_POOL_SIZE) := by
  intro rows
  induction rows with
  | nil => intro _; rfl
  | cons a t ih =>
    intro h
    rcases List.pairwise_cons.mp h with ⟨ha, ht⟩
    have hcountA : newerCount (a :: t) a = t.length := by
      unfold newerCount
      rw [List.filter_cons, if_neg (by simp)]
      rw [List.filter_eq_self.mpr fun b hb => decide_eq_true (ha b hb)]
    have hcongr : t.filter (fun r => decide (newerCount (a :: t) r < MAX_POOL_SIZE)) =
        t.filter (fun r => decide (newerCount t r < MAX_POOL_SIZE)) := by
      refine List.filter_congr ?_
      intro r hr
      have hnc : newerCount (a :: t) r = newerCount t r := by
        unfold newerCount
        rw [List.filter_cons, if_neg ?_]
        simp only [decide_eq_true_eq]
        exact fun hc => absurd (ha r hr) (Nat.lt_asymm hc)
      rw [hnc]
    rw [List.filter_cons]
    by_cases hlt : t.length < MAX_POOL_SIZE
    · rw [if_pos (by rw [hcountA]; exact decide_eq_true hlt)]
      rw [hcongr, ih ht]
      have h0 : (a :: t).length - MAX_POOL_SIZE = 0 := by
        simp only [List.length_cons]
        omega
      have h0' : t.length - MAX_POOL_SIZE = 0 := by omega
      rw [h0, h0', List.drop_zero, List.drop_zero]
    · rw [if_neg (by rw [hcountA]; simpa using hlt)]
      rw [hcongr, ih ht]
      have hs : (a :: t).length - MAX_POOL_SIZE = (t.length - MAX_POOL_SIZE) + 1 := by
        simp only [List.length_cons]
        omega
      rw [hs, List.drop_succ_cons]

/-- `insertMany` preserves the admission-time invariant. -/
theorem insertMany_times_ascending (vs : List VideoInsert) :
    ∀ st : PoolSt, poolTimesAscending st → poolTimesAscending (insertMany st vs).1 := by
  induction vs with
  | nil => intro st h; exact h
  | cons v rest ih =>
    intro st h
    simp only [insertMany]
    split
    · exact ih st h
    · split
      · exact ih st h
      · refine ih _ ?_
        rcases h with ⟨hpw, hbound⟩
        constructor
        · dsimp only
          rw [List.pairwise_append]
          refine ⟨hpw, List.pairwise_singleton _ _, ?_⟩
          intro x hx b hb
          rw [List.mem_singleton.mp hb]
          exact hbound x hx
        · dsimp only
          intro r hr
          rcases List.mem_append.mp hr with h1 | h2
          · exact Nat.lt_trans (hbound r h1) (Nat.lt_succ_self _)
          · rw [List.mem_singleton.mp h2]
            exact Nat.lt_succ_self _

/-- C6: after every `addToPool`, the pool holds at most `MAX_POOL_SIZE` rows, and
whenever admission pushed it beyond `MAX_POOL_SIZE`, the retained rows are exactly
the `MAX_POOL_SIZE` most-recently-inserted ones (the admission-order suffix: every
evicted row is older than every retained row). -/
theorem c6_eviction_bound (st : PoolSt) (h : poolTimesAscending st)
    (newVideos : List Video) :
    (addToPool st newVideos).1.rows.length ≤ MAX_POOL_SIZE ∧
    ∀ st1 : PoolSt,
      st1 = (insertMany st ((newVideos.filter (fun v => v.id ≠ "")).map videoToInsert)).1 →
      (addToPool st newVideos).1.rows = st1.rows.drop (st1.rows.length - MAX_POOL_SIZE) ∧
      (MAX_POOL_SIZE < st1.rows.length →
        (addToPool st newVideos).1.rows.length = MAX_POOL_SIZE ∧
        ∀ r ∈ st1.rows, r ∉ (addToPool st newVideos).1.rows →
          ∀ s ∈ (addToPool st newVideos).1.rows, r.insertedAt < s.insertedAt) := by
  have hasc : poolTimesAscending
      (insertMany st ((newVideos.filter (fun v => v.id ≠ "")).map videoToInsert)).1 :=
    insertMany_times_ascending _ st h
  have hd : (addToPool st newVideos).1.rows =
      (insertMany st ((newVideos.filter (fun v => v.id ≠ "")).map videoToInsert)).1.rows.drop
        ((insertMany st ((newVideos.filter (fun v => v.id ≠ "")).map videoToInsert)).1.rows.length -
          MAX_POOL_SIZE) := by
    unfold addToPool evictOldest
    dsimp only
    exact evict_rows_eq_drop _ hasc.1
  constructor
  · rw [hd, List.length_drop]
    omega
  · intro st1 hst1
    subst hst1
    refine ⟨hd, ?_⟩
    intro hbig
    constructor
    · rw [hd, List.length_drop]
      omega
    · intro r hr hnot s hs
      have hsplit := List.take_append_drop
        ((insertMany st ((newVideos.filter (fun v => v.id ≠ "")).map videoToInsert)).1.rows.length -
          MAX_POOL_SIZE)
        (insertMany st ((newVideos.filter (fun v => v.id ≠ "")).map videoToInsert)).1.rows
      have hcross := (List.pairwise_append.mp
        (by rw [hsplit]; exact hasc.1)).2.2
      have hrtake : r ∈ (insertMany st
          ((newVideos.filter (fun v => v.id ≠ "")).map videoToInsert)).1.rows.take
          ((insertMany st ((newVideos.filter (fun v => v.id ≠ "")).map videoToInsert)).1.rows.length -
            MAX_POOL_SIZE) := by
        rcases List.mem_append.mp (by rw [hsplit]; exact hr) with h1 | h2
        · exact h1
        · exact absurd (by rw [hd]; exact h2) hnot
      refine hcross r hrtake s ?_
      rw [hd] at hs
      exact hs

/-- Witness for C6: `addToPool` on the two-row ascending pool `c2Pool`. -/
theorem c6_witness :
    poolTimesAscending c2Pool ∧
    ((addToPool c2Pool [sampleVideo "z"]).1.rows.length ≤ MAX_POOL_SIZE ∧
     ∀ st1 : PoolSt,
       st1 = (insertMany c2Pool (([sampleVideo "z"].filter
         (fun v => v.id ≠ "")).map videoToInsert)).1 →
       (addToPool c2Pool [sampleVideo "z"]).1.rows =
         st1.rows.drop (st1.rows.length - MAX_POOL_SIZE) ∧
       (MAX_POOL_SIZE < st1.rows.length →
         (addToPool c2Pool [sampleVideo "z"]).1.rows.length = MAX_POOL_SIZE ∧
         ∀ r ∈ st1.rows, r ∉ (addToPool c2Pool [sampleVideo "z"]).1.rows →
           ∀ s ∈ (addToPool c2Pool [sampleVideo "z"]).1.rows,
             r.insertedAt < s.insertedAt)) :=
  ⟨⟨by unfold c2Pool; decide, by unfold c2Pool; decide⟩,
   c6_eviction_bound c2Pool ⟨by unfold c2Pool; decide, by unfold c2Pool; decide⟩
     [sampleVideo "z"]⟩
